import Mathlib

/-!
Verification development for the RBT 2-D superconductor screening scripts.

The embedding models the three analysis scripts:
* `scripts/parity_check.py` — connectivity-graph construction and the K = 0
  parity screen (`ParityCheck` namespace);
* `scripts/bond_quantum.py` — light-atom bond selection, phonon-energy
  estimation and the energy threshold screen (`BondQuantum` namespace);
* `scripts/check_phonon_stability.py` — frequency extraction from QE output
  and the stability exit-code logic (`Stability` namespace).

The external CrystalNN neighbour search is treated as an opaque oracle
`nn : ℕ → Option (List (ℕ × ℚ))`: for an atom index it returns the list of
neighbour records `(site_index, weight)` that `get_nn_info` would produce, or
`none` when the library raises (the scripts catch that per-atom and skip the
atom).  Structures are modelled by their per-site element symbols; float
inputs (distances, masses, cutoffs) are modelled as rationals, while derived
phonon energies (which pass through a square root) live in `ℝ`.
-/

namespace ParityCheck

/-- A networkx-style undirected graph as built by
`RBTParityChecker.build_connectivity_graph`: a node list in insertion order
and an edge list `(i, j, distance)` in insertion order. -/
structure Graph where
  nodes : List ℕ
  edges : List (ℕ × ℕ × ℚ)
deriving DecidableEq

/-- The `G.has_edge(i, j)` test of networkx: membership of the unordered pair
`{i, j}` among the recorded edges. -/
def hasEdge (es : List (ℕ × ℕ × ℚ)) (i j : ℕ) : Bool :=
  es.any fun e => decide ((e.1 = i ∧ e.2.1 = j) ∨ (e.1 = j ∧ e.2.1 = i))

/-- One iteration of the inner neighbour loop of `build_connectivity_graph`:
`if distance <= self.cutoff_distance and not G.has_edge(i, j): G.add_edge(...)`. -/
def addNeighborEdge (cutoff : ℚ) (i : ℕ) (es : List (ℕ × ℕ × ℚ)) (p : ℕ × ℚ) :
    List (ℕ × ℕ × ℚ) :=
  if p.2 ≤ cutoff ∧ hasEdge es i p.1 = false then es ++ [(i, p.1, p.2)] else es

/-- The body of the outer atom loop of `build_connectivity_graph`: ask the
neighbour oracle for atom `i` and fold its records in; a raised exception
(`none`) leaves the edge list unchanged (warn-and-skip). -/
def addAtomEdges (cutoff : ℚ) (nn : ℕ → Option (List (ℕ × ℚ)))
    (es : List (ℕ × ℕ × ℚ)) (i : ℕ) : List (ℕ × ℕ × ℚ) :=
  match nn i with
  | none => es
  | some nbrs => nbrs.foldl (addNeighborEdge cutoff i) es

/-- Node insertion as networkx `add_edge` performs it implicitly: an endpoint
not yet present is appended to the node list. -/
def insertNode (ns : List ℕ) (v : ℕ) : List ℕ :=
  if v ∈ ns then ns else ns ++ [v]

/-- `RBTParityChecker.build_connectivity_graph`: all atom indices become
nodes, then every neighbour record within the cutoff adds an edge unless the
unordered pair is already present.  Endpoints of added edges are inserted as
nodes exactly as networkx `add_edge` would (a no-op whenever the oracle only
reports valid atom indices). -/
def build_connectivity_graph (atoms : List String)
    (nn : ℕ → Option (List (ℕ × ℚ))) (cutoff : ℚ) : Graph :=
  let n := atoms.length
  let edges := (List.range n).foldl (addAtomEdges cutoff nn) []
  let nodes := edges.foldl (fun ns e => insertNode (insertNode ns e.1) e.2.1)
    (List.range n)
  ⟨nodes, edges⟩

/-- The networkx degree of a node: incident edges counted once, self-loops
counted twice. -/
def nxDegree (G : Graph) (v : ℕ) : ℕ :=
  (G.edges.map fun e =>
    if e.1 = v ∧ e.2.1 = v then 2 else if e.1 = v ∨ e.2.1 = v then 1 else 0).sum

/-- The degree-statistics dictionary assembled by `calculate_parity`. -/
structure DegreeStats where
  total_vertices : ℕ
  total_edges : ℕ
  min_degree : ℕ
  max_degree : ℕ
  avg_degree : ℚ
  odd_degree_count : ℕ
  even_degree_count : ℕ
deriving DecidableEq

/-- `RBTParityChecker.calculate_parity`: degree of every node, the list of
odd-degree vertices in node order, `K` as its length, and the statistics with
the `if degree_values else 0` guards for `min`/`max`/`mean`. -/
def calculate_parity (G : Graph) : ℕ × List ℕ × DegreeStats :=
  let degrees := G.nodes.map fun v => (v, nxDegree G v)
  let degree_values := degrees.map Prod.snd
  let odd_vertices := (degrees.filter fun p => decide (p.2 % 2 = 1)).map Prod.fst
  let K := odd_vertices.length
  let stats : DegreeStats :=
    { total_vertices := G.nodes.length
      total_edges := G.edges.length
      min_degree := degree_values.min?.getD 0
      max_degree := degree_values.max?.getD 0
      avg_degree := if degree_values.length = 0 then 0 else
        (degree_values.map fun d => (d : ℚ)).sum / degree_values.length
      odd_degree_count := K
      even_degree_count := degree_values.length - K }
  (K, odd_vertices, stats)

/-- The fields of the results dictionary of `RBTParityChecker.analyze_structure`
that the parity verdict consists of. -/
structure ParityResult where
  K_parity : ℕ
  passes_parity_test : Bool
  odd_vertices : List ℕ
  graph_stats : DegreeStats
deriving DecidableEq

/-- `RBTParityChecker.analyze_structure` after the structure has been loaded:
build the connectivity graph, compute the parity data, and record
`passes_parity_test = (K == 0)`. -/
def analyze_structure (atoms : List String) (nn : ℕ → Option (List (ℕ × ℚ)))
    (cutoff : ℚ) : ParityResult :=
  let graph := build_connectivity_graph atoms nn cutoff
  let r := calculate_parity graph
  ⟨r.1, r.1 == 0, r.2.1, r.2.2⟩

/-- The unordered endpoint pair of an edge record. -/
def upair (e : ℕ × ℕ × ℚ) : ℕ × ℕ := (min e.1 e.2.1, max e.1 e.2.1)

/-- Degree in the sense of the words of the specification, "count of incident
edges": every incident edge counts once, a self-loop included.  This is the
spec-side reading compared against the networkx degree used by the code. -/
def specIncidentDegree (G : Graph) (v : ℕ) : ℕ :=
  (G.edges.filter fun e => decide (e.1 = v ∨ e.2.1 = v)).length

/-- No two recorded edges share an unordered endpoint pair. -/
def NodupPairs (es : List (ℕ × ℕ × ℚ)) : Prop :=
  es.Pairwise fun e e' => upair e ≠ upair e'

/-- All recorded endpoints are valid atom indices. -/
def EdgesBounded (n : ℕ) (es : List (ℕ × ℕ × ℚ)) : Prop :=
  ∀ e ∈ es, e.1 < n ∧ e.2.1 < n

end ParityCheck

namespace BondQuantum

/-- `BondQuantumAnalyzer.LIGHT_ATOMS`: the fixed allow-list of light elements. -/
def LIGHT_ATOMS : List String := ["H", "He", "Li", "Be", "B", "C", "N", "O", "F", "Ne"]

/-- One bond dictionary as assembled in `find_light_atom_bonds`. -/
structure Bond where
  atom1_idx : ℕ
  atom2_idx : ℕ
  atom1_element : String
  atom2_element : String
  distance : ℚ
  reduced_mass : ℚ
  bond_type : String
  both_light : Bool
deriving DecidableEq

/-- `BondQuantumAnalyzer._calculate_reduced_mass`: `m1*m2/(m1+m2)` from the
element mass table, with the bare `except` returning `1.0` on a failed lookup
(or on the impossible zero-division). -/
def calculate_reduced_mass (mass : String → Option ℚ) (element1 element2 : String) : ℚ :=
  match mass element1, mass element2 with
  | some m1, some m2 => if m1 + m2 = 0 then 1 else m1 * m2 / (m1 + m2)
  | _, _ => 1

/-- The raw bond list accumulated by the loops of `find_light_atom_bonds`
before deduplication: every light origin atom contributes one record per
neighbour-oracle entry; an oracle exception (`none`) skips that atom. -/
def lightBondsRaw (atoms : List String) (mass : String → Option ℚ)
    (nn : ℕ → Option (List (ℕ × ℚ))) : List Bond :=
  (List.range atoms.length).flatMap fun i =>
    let element := atoms.getD i ""
    if element ∈ LIGHT_ATOMS then
      match nn i with
      | none => []
      | some neighbors =>
        neighbors.map fun p =>
          let neighbor_element := atoms.getD p.1 ""
          { atom1_idx := i
            atom2_idx := p.1
            atom1_element := element
            atom2_element := neighbor_element
            distance := p.2
            reduced_mass := calculate_reduced_mass mass element neighbor_element
            bond_type := element ++ "-" ++ neighbor_element
            both_light := decide (element ∈ LIGHT_ATOMS) &&
              decide (neighbor_element ∈ LIGHT_ATOMS) }
    else []

/-- `tuple(sorted([bond['atom1_idx'], bond['atom2_idx']]))` — the key used by
the deduplication pass. -/
def pairKey (b : Bond) : ℕ × ℕ := (min b.atom1_idx b.atom2_idx, max b.atom1_idx b.atom2_idx)

/-- The deduplication loop of `find_light_atom_bonds`: walk the raw list,
keep a bond only when its unordered index pair has not been seen yet. -/
def dedupGo : List Bond → List (ℕ × ℕ) → List Bond
  | [], _ => []
  | b :: rest, seen =>
    if pairKey b ∈ seen then dedupGo rest seen
    else b :: dedupGo rest (pairKey b :: seen)

/-- `BondQuantumAnalyzer.find_light_atom_bonds`: raw collection followed by
first-seen deduplication on the unordered index pair. -/
def find_light_atom_bonds (atoms : List String) (mass : String → Option ℚ)
    (nn : ℕ → Option (List (ℕ × ℚ))) : List Bond :=
  dedupGo (lightBondsRaw atoms mass nn) []

/-- `BondQuantumAnalyzer.HBAR` in eV⋅s. -/
def HBAR : ℝ := 6.582119569e-16

/-- `BondQuantumAnalyzer.PI` (`np.pi`). -/
noncomputable def PI : ℝ := Real.pi

/-- `BondQuantumAnalyzer.estimate_phonon_energy`: harmonic estimate
`k = 100 / r²`, `μ` converted by `1.036427e-4`, `ω = sqrt(k/μ)`,
energy `ħω/π` (to meV and back to eV exactly as the code does). -/
noncomputable def estimate_phonon_energy (bond_distance reduced_mass : ℝ) : ℝ :=
  let r_angstrom := bond_distance
  let mu_amu := reduced_mass
  let force_constant_scale : ℝ := 100.0
  let k_force := force_constant_scale / r_angstrom ^ 2
  let amu_to_ev_per_ang2 : ℝ := 1.036427e-4
  let mu_ev_units := mu_amu * amu_to_ev_per_ang2
  let omega := Real.sqrt (k_force / mu_ev_units)
  let energy_meV := HBAR * omega / PI * 1000
  let energy_eV := energy_meV / 1000
  energy_eV

/-- A bond dictionary after `analyze_structure` has attached the two phonon
energy fields. -/
structure ABond where
  bond : Bond
  phonon_energy_eV : ℝ
  phonon_energy_meV : ℝ

/-- The per-bond energy computation of `analyze_structure`
(`bond['phonon_energy_eV'] = ...; bond['phonon_energy_meV'] = ... * 1000`). -/
noncomputable def attachEnergy (b : Bond) : ABond :=
  let e := estimate_phonon_energy (b.distance : ℝ) (b.reduced_mass : ℝ)
  ⟨b, e, e * 1000⟩

/-- The sort key comparison `lambda x: x['distance']` of the ascending sort. -/
def distLE (a b : ABond) : Bool := decide (a.bond.distance ≤ b.bond.distance)

/-- Python's `max` over a non-empty sequence (`0` only pads the impossible
empty case, which the code short-circuits away). -/
noncomputable def pymax : List ℝ → ℝ
  | [] => 0
  | x :: xs => xs.foldl max x

/-- The float comparison `x >= y` used for the critical-bond filter. -/
noncomputable def rge (x y : ℝ) : Bool := @decide (y ≤ x) (Classical.propDecidable _)

/-- The results dictionary of `BondQuantumAnalyzer.analyze_structure`.  The
`threshold_meV` key is `Option`-valued because the empty-bond branch of the
code omits it from the dictionary. -/
structure BQResult where
  light_bonds : List ABond
  shortest_bond : Option ABond
  phonon_energy_meV : ℝ
  phonon_energy_eV : ℝ
  passes_energy_test : Prop
  critical_bonds : List ABond
  threshold_meV : Option ℝ

/-- `BondQuantumAnalyzer.analyze_structure` after loading and bond search: the
empty-bond short-circuit, otherwise energy annotation, ascending sort by
distance, critical-bond filter, shortest bond, and the max-energy verdict
`max_energy >= threshold`. -/
noncomputable def analyze_structure (light_bonds : List Bond) (threshold : ℝ) : BQResult :=
  if light_bonds.isEmpty then
    { light_bonds := []
      shortest_bond := none
      phonon_energy_meV := 0
      phonon_energy_eV := 0
      passes_energy_test := False
      critical_bonds := []
      threshold_meV := none }
  else
    let annotated := light_bonds.map attachEnergy
    let sorted := annotated.mergeSort distLE
    let critical := sorted.filter fun b => rge b.phonon_energy_eV threshold
    let shortest := sorted.head?
    let max_energy := pymax (sorted.map fun b => b.phonon_energy_eV)
    { light_bonds := sorted
      shortest_bond := shortest
      phonon_energy_meV := max_energy * 1000
      phonon_energy_eV := max_energy
      passes_energy_test := threshold ≤ max_energy
      critical_bonds := critical
      threshold_meV := some (threshold * 1000) }

/-- The exit code `main` of `bond_quantum.py` produces for a computed result:
both the quiet and the verbose print path read `results['threshold_meV']`
before `sys.exit(exit_code)` runs, so a result lacking that key raises
`KeyError`, is caught by the blanket `except`, and exits 2; otherwise the
code exits 0 on a pass and 1 on a fail. -/
noncomputable def bond_quantum_exit (r : BQResult) : ℕ :=
  match r.threshold_meV with
  | none => 2
  | some _ =>
    haveI := Classical.propDecidable r.passes_energy_test
    if r.passes_energy_test then 0 else 1

end BondQuantum

namespace Stability

/-- The character class `\s` of Python regular expressions. -/
def pyIsSpace (c : Char) : Bool :=
  c = ' ' || c = '\t' || c = '\n' || c = '\r' || c = '\x0b' || c = '\x0c'

/-- The character class `[\-0-9\.]` of `FREQ_REGEX`. -/
def isFreqChar (c : Char) : Bool := c = '-' || c.isDigit || c = '.'

/-- The lazy part of `FREQ_REGEX` after the literal `freq(` has matched:
`.*?\)=\s*([\-0-9\.]+)`.  The reluctant `.*?` consumes non-newline characters
until a `)=` is found whose tail (optional whitespace, then at least one
`[\-0-9\.]` character) matches; the greedy capture group is the maximal run.
Backtracking past a failing `)=` continues the scan, exactly as the Python
engine does. -/
def lazyClose : List Char → Option (List Char)
  | ')' :: '=' :: rest =>
    let run := (rest.dropWhile pyIsSpace).takeWhile isFreqChar
    if run.isEmpty then lazyClose rest else some run
  | c :: rest => if c = '\n' then none else lazyClose rest
  | [] => none

/-- `FREQ_REGEX.search` on one line: scan start positions left to right for
the literal `freq(`, then match the rest of the pattern lazily; the returned
value is `m.group(1)`. -/
def searchFreq : List Char → Option (List Char)
  | 'f' :: 'r' :: 'e' :: 'q' :: '(' :: rest =>
    match lazyClose rest with
    | some run => some run
    | none => searchFreq rest
  | _ :: rest => searchFreq rest
  | [] => none

/-- Digit run to a natural number. -/
def digitsToNat (cs : List Char) : ℕ :=
  cs.foldl (fun n c => 10 * n + (c.toNat - 48)) 0

/-- Unsigned part of Python `float()` restricted to the `[\-0-9\.]` character
class: digits with at most one dot and at least one digit. -/
def pyFloatCore (t : List Char) : Option ℚ :=
  if (∀ c ∈ t, c.isDigit ∨ c = '.') ∧ (t.filter fun c => c = '.').length ≤ 1 ∧
      (∃ c ∈ t, c.isDigit = true) then
    let ip := t.takeWhile fun c => c != '.'
    let fp := (t.dropWhile fun c => c != '.').drop 1
    some ((digitsToNat ip : ℚ) + (digitsToNat fp : ℚ) / (10 : ℚ) ^ fp.length)
  else none

/-- Python `float()` on a captured group (whose characters all lie in
`[\-0-9\.]`): an optional leading minus sign, then `pyFloatCore`; `none`
models the `ValueError` that a malformed capture such as `"."` raises. -/
def pyFloat (cs : List Char) : Option ℚ :=
  match cs with
  | '-' :: t => (pyFloatCore t).map Neg.neg
  | t => pyFloatCore t

/-- The line loop of `parse_frequencies`: collect `float(m.group(1))` for
every matching line in order; a `float()` failure aborts the whole parse
(the exception propagates out of the loop). -/
def parseGo : List String → Except String (List ℚ)
  | [] => .ok []
  | l :: ls =>
    match searchFreq l.toList with
    | none => parseGo ls
    | some cap =>
      match pyFloat cap with
      | none => .error "could not convert string to float"
      | some q => (parseGo ls).map fun fs => q :: fs

/-- `parse_frequencies`: the collected frequencies of one file, raising
(`.error`) when a line fails to convert or when no line matched at all. -/
def parse_frequencies (lines : List String) : Except String (List ℚ) :=
  match parseGo lines with
  | .error e => .error e
  | .ok [] => .error "No frequencies found"
  | .ok fs => .ok fs

/-- Python `min` over a non-empty list (the empty case cannot be reached
because `parse_frequencies` raises on an empty result). -/
def pymin : List ℚ → ℚ
  | [] => 0
  | x :: xs => xs.foldl min x

/-- The accumulator loop of `analyse_files` over the remaining files, carrying
`total`, `imag` and `min_freq`. -/
def analyseGo : List (List String) → ℕ → ℕ → ℚ → Except String (ℕ × ℕ × ℚ)
  | [], total, imag, min_freq => .ok (total, imag, min_freq)
  | f :: fs, total, imag, min_freq =>
    match parse_frequencies f with
    | .error e => .error e
    | .ok freqs =>
      analyseGo fs (total + freqs.length)
        (imag + (freqs.filter fun w => decide (w < 0)).length)
        (min min_freq (pymin freqs))

/-- `analyse_files`: fold all files starting from `total = 0`, `imag = 0`,
`min_freq = 1e9`. -/
def analyse_files (files : List (List String)) : Except String (ℕ × ℕ × ℚ) :=
  analyseGo files 0 0 ((10 : ℚ) ^ 9)

/-- `parse_frequencies` applied to each file in turn, stopping at the first
failure — the parsing behaviour `analyse_files` observes, kept per file. -/
def parseAll : List (List String) → Except String (List (List ℚ))
  | [] => .ok []
  | c :: cs =>
    match parse_frequencies c with
    | .error e => .error e
    | .ok fs => (parseAll cs).map fun rest => fs :: rest

/-- The `main` of `check_phonon_stability.py` as a function from the argument
files to the process exit code.  Each argument is `some lines` for a readable
file and `none` for a missing/unreadable one; no arguments, a missing file,
or a parse error exit 2, otherwise the verdict is 0 when no negative
frequency was accumulated and 1 when at least one was. -/
def stability_main (files : List (Option (List String))) : ℕ :=
  match files with
  | [] => 2
  | _ :: _ =>
    if files.any fun f => f.isNone then 2
    else
      match analyse_files (files.filterMap id) with
      | .error _ => 2
      | .ok (_, imag, _) => if imag = 0 then 0 else 1

end Stability

namespace ParityCheck

theorem upair_eq_iff (a b c d : ℕ) (q q' : ℚ) :
    upair (a, b, q) = upair (c, d, q') ↔ (a = c ∧ b = d) ∨ (a = d ∧ b = c) := by
  simp only [upair, Prod.mk.injEq]
  omega

theorem hasEdge_eq_false_iff (es : List (ℕ × ℕ × ℚ)) (i j : ℕ) :
    hasEdge es i j = false ↔
      ∀ e ∈ es, ¬((e.1 = i ∧ e.2.1 = j) ∨ (e.1 = j ∧ e.2.1 = i)) := by
  simp [hasEdge]

theorem nodup_addNeighborEdge (cutoff : ℚ) (i : ℕ) (es : List (ℕ × ℕ × ℚ))
    (p : ℕ × ℚ) (h : NodupPairs es) : NodupPairs (addNeighborEdge cutoff i es p) := by
  unfold addNeighborEdge
  split
  · rename_i hc
    rw [NodupPairs, List.pairwise_append]
    refine ⟨h, List.pairwise_singleton _ _, ?_⟩
    intro a ha b hb
    simp only [List.mem_singleton] at hb
    subst hb
    have hne := (hasEdge_eq_false_iff es i p.1).mp hc.2 a ha
    intro hEq
    obtain ⟨a1, a2, aq⟩ := a
    rw [upair_eq_iff] at hEq
    exact hne (by tauto)
  · exact h

theorem nodup_foldl_nbrs (cutoff : ℚ) (i : ℕ) :
    ∀ (nbrs : List (ℕ × ℚ)) (es : List (ℕ × ℕ × ℚ)), NodupPairs es →
      NodupPairs (nbrs.foldl (addNeighborEdge cutoff i) es)
  | [], _, h => h
  | p :: nbrs, es, h =>
    nodup_foldl_nbrs cutoff i nbrs _ (nodup_addNeighborEdge cutoff i es p h)

theorem nodup_addAtomEdges (cutoff : ℚ) (nn : ℕ → Option (List (ℕ × ℚ)))
    (es : List (ℕ × ℕ × ℚ)) (i : ℕ) (h : NodupPairs es) :
    NodupPairs (addAtomEdges cutoff nn es i) := by
  unfold addAtomEdges
  cases nn i with
  | none => exact h
  | some nbrs => exact nodup_foldl_nbrs cutoff i nbrs es h

theorem nodup_foldl_atoms (cutoff : ℚ) (nn : ℕ → Option (List (ℕ × ℚ))) :
    ∀ (l : List ℕ) (es : List (ℕ × ℕ × ℚ)), NodupPairs es →
      NodupPairs (l.foldl (addAtomEdges cutoff nn) es)
  | [], _, h => h
  | i :: l, es, h =>
    nodup_foldl_atoms cutoff nn l _ (nodup_addAtomEdges cutoff nn es i h)

theorem bounded_addNeighborEdge (n : ℕ) (cutoff : ℚ) (i : ℕ)
    (es : List (ℕ × ℕ × ℚ)) (p : ℕ × ℚ) (hi : i < n) (hp : p.1 < n)
    (h : EdgesBounded n es) : EdgesBounded n (addNeighborEdge cutoff i es p) := by
  unfold addNeighborEdge
  split
  · intro e he
    rcases List.mem_append.mp he with he | he
    · exact h e he
    · simp only [List.mem_singleton] at he
      subst he
      exact ⟨hi, hp⟩
  · exact h

theorem bounded_foldl_nbrs (n : ℕ) (cutoff : ℚ) (i : ℕ) (hi : i < n) :
    ∀ (nbrs : List (ℕ × ℚ)), (∀ p ∈ nbrs, p.1 < n) →
      ∀ (es : List (ℕ × ℕ × ℚ)), EdgesBounded n es →
        EdgesBounded n (nbrs.foldl (addNeighborEdge cutoff i) es)
  | [], _, _, h => h
  | p :: nbrs, hp, es, h =>
    bounded_foldl_nbrs n cutoff i hi nbrs
      (fun q hq => hp q (List.mem_cons_of_mem _ hq)) _
      (bounded_addNeighborEdge n cutoff i es p hi (hp p (List.mem_cons_self _ _)) h)

theorem bounded_addAtomEdges (n : ℕ) (cutoff : ℚ) (nn : ℕ → Option (List (ℕ × ℚ)))
    (hvalid : ∀ i nbrs, nn i = some nbrs → ∀ p ∈ nbrs, p.1 < n)
    (es : List (ℕ × ℕ × ℚ)) (i : ℕ) (hi : i < n) (h : EdgesBounded n es) :
    EdgesBounded n (addAtomEdges cutoff nn es i) := by
  unfold addAtomEdges
  cases hnn : nn i with
  | none => exact h
  | some nbrs => exact bounded_foldl_nbrs n cutoff i hi nbrs (hvalid i nbrs hnn) es h

theorem bounded_foldl_atoms (n : ℕ) (cutoff : ℚ) (nn : ℕ → Option (List (ℕ × ℚ)))
    (hvalid : ∀ i nbrs, nn i = some nbrs → ∀ p ∈ nbrs, p.1 < n) :
    ∀ (l : List ℕ), (∀ i ∈ l, i < n) →
      ∀ (es : List (ℕ × ℕ × ℚ)), EdgesBounded n es →
        EdgesBounded n (l.foldl (addAtomEdges cutoff nn) es)
  | [], _, _, h => h
  | i :: l, hl, es, h =>
    bounded_foldl_atoms n cutoff nn hvalid l
      (fun j hj => hl j (List.mem_cons_of_mem _ hj)) _
      (bounded_addAtomEdges n cutoff nn hvalid es i (hl i (List.mem_cons_self _ _)) h)

theorem nodes_foldl_range (n : ℕ) :
    ∀ (es : List (ℕ × ℕ × ℚ)), EdgesBounded n es →
      es.foldl (fun ns e => insertNode (insertNode ns e.1) e.2.1) (List.range n) =
        List.range n
  | [], _ => rfl
  | e :: es, h => by
    have h1 : e.1 ∈ List.range n := List.mem_range.mpr (h e (List.mem_cons_self _ _)).1
    have h2 : e.2.1 ∈ List.range n := List.mem_range.mpr (h e (List.mem_cons_self _ _)).2
    have hin : insertNode (List.range n) e.1 = List.range n := by
      rw [insertNode, if_pos h1]
    have : insertNode (insertNode (List.range n) e.1) e.2.1 = List.range n := by
      rw [hin, insertNode, if_pos h2]
    rw [List.foldl_cons, this]
    exact nodes_foldl_range n es fun e' he' => h e' (List.mem_cons_of_mem _ he')

theorem calculate_parity_odd_filter (G : Graph) :
    (calculate_parity G).2.1 = G.nodes.filter fun v => decide (nxDegree G v % 2 = 1) := by
  show ((G.nodes.map fun v => (v, nxDegree G v)).filter
      fun p => decide (p.2 % 2 = 1)).map Prod.fst = _
  rw [List.filter_map, List.map_map]
  exact List.map_id _

end ParityCheck

/-- C2 counterexample: a one-atom structure whose neighbour oracle reports the
atom as a neighbour of itself (as the periodic neighbour search does for an
atom bonded to its own periodic image) produces a graph with an edge from
node 0 to node 0, so the built graph is not always free of self-loops. -/
theorem build_graph_self_loop_cex :
    (0, 0, (3 : ℚ)) ∈
      (ParityCheck.build_connectivity_graph ["Li"] (fun _ => some [(0, 3)]) 4).edges := by
  decide

/-- C2 (amended): for every structure, neighbour oracle reporting only valid
atom indices, and cutoff, the graph built by `build_connectivity_graph` has no
two edges on the same unordered node pair, and its node list is exactly the
atom indices, so its node count equals the atom count (isolated atoms keep
degree 0); an edge may however join a node to itself when the oracle reports
an atom as its own neighbour. -/
theorem build_graph_edges_nodup_and_nodes (atoms : List String)
    (nn : ℕ → Option (List (ℕ × ℚ))) (cutoff : ℚ)
    (hvalid : ∀ i nbrs, nn i = some nbrs → ∀ p ∈ nbrs, p.1 < atoms.length) :
    let G : ParityCheck.Graph := ParityCheck.build_connectivity_graph atoms nn cutoff
    G.edges.Pairwise (fun e e' => ParityCheck.upair e ≠ ParityCheck.upair e') ∧
    G.nodes = List.range atoms.length ∧
    G.nodes.length = atoms.length := by
  intro G
  have hnodup : ParityCheck.NodupPairs
      ((List.range atoms.length).foldl (ParityCheck.addAtomEdges cutoff nn) []) :=
    ParityCheck.nodup_foldl_atoms cutoff nn _ _ List.Pairwise.nil
  have hbound : ParityCheck.EdgesBounded atoms.length
      ((List.range atoms.length).foldl (ParityCheck.addAtomEdges cutoff nn) []) :=
    ParityCheck.bounded_foldl_atoms atoms.length cutoff nn hvalid _
      (fun i hi => List.mem_range.mp hi) _ (fun e he => absurd he (List.not_mem_nil e))
  have hnodes := ParityCheck.nodes_foldl_range atoms.length _ hbound
  exact ⟨hnodup, hnodes, by rw [show G.nodes = _ from hnodes, List.length_range]⟩

/-- C2 witness: the amended theorem applied to a concrete two-atom structure
with a mutually-reporting neighbour oracle. -/
theorem build_graph_edges_nodup_and_nodes_witness :
    let G := ParityCheck.build_connectivity_graph ["H", "O"]
      (fun i => if i = 0 then some [(1, 1)] else if i = 1 then some [(0, 1)] else none) 4
    G.edges.Pairwise (fun e e' => ParityCheck.upair e ≠ ParityCheck.upair e') ∧
    G.nodes = List.range 2 ∧
    G.nodes.length = 2 :=
  build_graph_edges_nodup_and_nodes ["H", "O"] _ 4 (by
    intro i nbrs h p hp
    by_cases h0 : i = 0
    · rw [if_pos h0] at h
      simp only [Option.some.injEq] at h
      subst h
      simp only [List.mem_singleton] at hp
      subst hp
      norm_num
    · rw [if_neg h0] at h
      by_cases h1 : i = 1
      · rw [if_pos h1] at h
        simp only [Option.some.injEq] at h
        subst h
        simp only [List.mem_singleton] at hp
        subst hp
        norm_num
      · rw [if_neg h1] at h
        simp at h)

/-- C3 counterexample: on the self-loop graph built from the one-atom
structure whose oracle reports the atom as its own neighbour,
`calculate_parity` returns K = 0 (networkx counts the self-loop twice, giving
even degree 2), while exactly one node has an odd count of incident edges, so
K is not the number of nodes whose count of incident edges is odd. -/
theorem calculate_parity_self_loop_cex :
    (ParityCheck.calculate_parity
      (ParityCheck.build_connectivity_graph ["Li"] (fun _ => some [(0, 3)]) 4)).1 = 0 ∧
    ((ParityCheck.build_connectivity_graph ["Li"] (fun _ => some [(0, 3)]) 4).nodes.filter
      fun v => decide (ParityCheck.specIncidentDegree
        (ParityCheck.build_connectivity_graph ["Li"] (fun _ => some [(0, 3)]) 4) v % 2 = 1)).length
      = 1 := by
  constructor
  · decide
  · decide

/-- C3 (amended): for every graph, `calculate_parity` returns K equal to the
number of nodes whose networkx degree (incident edges with self-loops counted
twice) is odd, together with exactly the list of those nodes, and the parity
test of `analyze_structure` passes if and only if K = 0 — an exact integer
comparison. -/
theorem calculate_parity_spec (G : ParityCheck.Graph) :
    (ParityCheck.calculate_parity G).1 =
      (G.nodes.filter fun v => decide (ParityCheck.nxDegree G v % 2 = 1)).length ∧
    (ParityCheck.calculate_parity G).2.1 =
      G.nodes.filter (fun v => decide (ParityCheck.nxDegree G v % 2 = 1)) ∧
    ∀ (atoms : List String) (nn : ℕ → Option (List (ℕ × ℚ))) (cutoff : ℚ),
      ((ParityCheck.analyze_structure atoms nn cutoff).passes_parity_test = true ↔
        (ParityCheck.calculate_parity
          (ParityCheck.build_connectivity_graph atoms nn cutoff)).1 = 0) := by
  refine ⟨?_, ParityCheck.calculate_parity_odd_filter G, ?_⟩
  · rw [show (ParityCheck.calculate_parity G).1 =
        (ParityCheck.calculate_parity G).2.1.length from rfl,
      ParityCheck.calculate_parity_odd_filter G]
  · intro atoms nn cutoff
    show ((ParityCheck.calculate_parity _).1 == 0) = true ↔ _
    exact beq_iff_eq

/-- C6: `calculate_parity` on the empty graph returns K = 0, an empty
odd-vertex list, and statistics whose min and max degree are 0 (and all other
fields 0), with no empty-sequence failure possible. -/
theorem calculate_parity_empty_graph :
    ParityCheck.calculate_parity ⟨[], []⟩ = (0, [], ⟨0, 0, 0, 0, 0, 0, 0⟩) := by
  decide

namespace BondQuantum

theorem dedupGo_not_mem_seen :
    ∀ (l : List Bond) (seen : List (ℕ × ℕ)) (b : Bond),
      b ∈ dedupGo l seen → pairKey b ∉ seen
  | [], _, _, hb => absurd hb (List.not_mem_nil _)
  | h :: t, seen, b, hb => by
    rw [dedupGo] at hb
    split at hb
    · exact dedupGo_not_mem_seen t seen b hb
    · rcases List.mem_cons.mp hb with hb | hb
      · subst hb
        assumption
      · have := dedupGo_not_mem_seen t (pairKey h :: seen) b hb
        exact fun hmem => this (List.mem_cons_of_mem _ hmem)

theorem dedupGo_pairwise :
    ∀ (l : List Bond) (seen : List (ℕ × ℕ)),
      (dedupGo l seen).Pairwise fun a b => pairKey a ≠ pairKey b
  | [], _ => List.Pairwise.nil
  | h :: t, seen => by
    rw [dedupGo]
    split
    · exact dedupGo_pairwise t seen
    · refine List.Pairwise.cons ?_ (dedupGo_pairwise t (pairKey h :: seen))
      intro b hb
      have := dedupGo_not_mem_seen t (pairKey h :: seen) b hb
      exact fun hEq => this (by rw [← hEq]; exact List.mem_cons_self _ _)

theorem dedupGo_subset :
    ∀ (l : List Bond) (seen : List (ℕ × ℕ)) (b : Bond), b ∈ dedupGo l seen → b ∈ l
  | [], _, _, hb => absurd hb (List.not_mem_nil _)
  | h :: t, seen, b, hb => by
    rw [dedupGo] at hb
    split at hb
    · exact List.mem_cons_of_mem _ (dedupGo_subset t seen b hb)
    · rcases List.mem_cons.mp hb with hb | hb
      · exact hb ▸ List.mem_cons_self _ _
      · exact List.mem_cons_of_mem _ (dedupGo_subset t (pairKey h :: seen) b hb)

theorem dedupGo_first_seen :
    ∀ (l : List Bond) (seen : List (ℕ × ℕ)) (b : Bond), b ∈ dedupGo l seen →
      l.find? (fun x => decide (pairKey x = pairKey b)) = some b
  | [], _, _, hb => absurd hb (List.not_mem_nil _)
  | h :: t, seen, b, hb => by
    rw [dedupGo] at hb
    split at hb
    · rename_i hseen
      have hbs := dedupGo_not_mem_seen t seen b hb
      have hne : pairKey h ≠ pairKey b := fun hEq => hbs (hEq ▸ hseen)
      rw [List.find?_cons_of_neg _ (by simpa using hne)]
      exact dedupGo_first_seen t seen b hb
    · rcases List.mem_cons.mp hb with hb | hb
      · subst hb
        exact List.find?_cons_of_pos _ (by simp)
      · have hbs := dedupGo_not_mem_seen t (pairKey h :: seen) b hb
        have hne : pairKey h ≠ pairKey b :=
          fun hEq => hbs (hEq ▸ List.mem_cons_self _ _)
        rw [List.find?_cons_of_neg _ (by simpa using hne)]
        exact dedupGo_first_seen t (pairKey h :: seen) b hb

theorem dedupGo_id_of_pairwise :
    ∀ (l : List Bond) (seen : List (ℕ × ℕ)),
      (l.Pairwise fun a b => pairKey a ≠ pairKey b) →
      (∀ b ∈ l, pairKey b ∉ seen) → dedupGo l seen = l
  | [], _, _, _ => rfl
  | h :: t, seen, hpw, hout => by
    rw [dedupGo, if_neg (hout h (List.mem_cons_self _ _))]
    congr 1
    refine dedupGo_id_of_pairwise t _ (List.Pairwise.of_cons hpw) ?_
    intro b hb
    rcases List.pairwise_cons.mp hpw with ⟨hh, -⟩
    intro hmem
    rcases List.mem_cons.mp hmem with hmem | hmem
    · exact hh b hb hmem.symm
    · exact hout b (List.mem_cons_of_mem _ hb) hmem

end BondQuantum

/-- C7: in the list returned by `find_light_atom_bonds` each unordered
atom-index pair appears at most once; every returned bond is the first-seen
record with its pair in the raw (pre-deduplication) bond list; and the
deduplication pass is idempotent — running it again on the returned list
changes nothing, so a second selector run yields the same (set-equal) list. -/
theorem find_light_atom_bonds_dedup_spec (atoms : List String)
    (mass : String → Option ℚ) (nn : ℕ → Option (List (ℕ × ℚ))) :
    let out : List BondQuantum.Bond := BondQuantum.find_light_atom_bonds atoms mass nn
    out.Pairwise (fun a b => BondQuantum.pairKey a ≠ BondQuantum.pairKey b) ∧
    (∀ b ∈ out, (BondQuantum.lightBondsRaw atoms mass nn).find?
      (fun x => decide (BondQuantum.pairKey x = BondQuantum.pairKey b)) = some b) ∧
    BondQuantum.dedupGo out [] = out := by
  intro out
  refine ⟨BondQuantum.dedupGo_pairwise _ _, ?_, ?_⟩
  · intro b hb
    exact BondQuantum.dedupGo_first_seen _ _ b hb
  · exact BondQuantum.dedupGo_id_of_pairwise _ _ (BondQuantum.dedupGo_pairwise _ _)
      (fun b _ => List.not_mem_nil _)

/-- C7 witness: a two-hydrogen structure whose oracle reports the bond from
both ends; the kept record is the first-seen one (distance 1, origin 0). -/
theorem find_light_atom_bonds_dedup_spec_witness :
    (BondQuantum.lightBondsRaw ["H", "H"] (fun _ => none)
        (fun i => if i = 0 then some [(1, 1)] else some [(0, 2)])).find?
      (fun x => decide (BondQuantum.pairKey x =
        BondQuantum.pairKey ⟨0, 1, "H", "H", 1, 1, "H-H", true⟩)) =
      some ⟨0, 1, "H", "H", 1, 1, "H-H", true⟩ :=
  (find_light_atom_bonds_dedup_spec ["H", "H"] (fun _ => none)
    (fun i => if i = 0 then some [(1, 1)] else some [(0, 2)])).2.1
    ⟨0, 1, "H", "H", 1, 1, "H-H", true⟩ (by decide)

/-- C9: every bond returned by `find_light_atom_bonds` has its first element
in the light-atom allow-list, and its `both_light` flag is true exactly when
the second element is also in that list. -/
theorem find_light_atom_bonds_light_flags (atoms : List String)
    (mass : String → Option ℚ) (nn : ℕ → Option (List (ℕ × ℚ))) :
    ∀ b ∈ BondQuantum.find_light_atom_bonds atoms mass nn,
      b.atom1_element ∈ BondQuantum.LIGHT_ATOMS ∧
      (b.both_light = true ↔ b.atom2_element ∈ BondQuantum.LIGHT_ATOMS) := by
  intro b hb
  have hraw : b ∈ BondQuantum.lightBondsRaw atoms mass nn :=
    BondQuantum.dedupGo_subset _ _ b hb
  rw [BondQuantum.lightBondsRaw, List.mem_flatMap] at hraw
  obtain ⟨i, -, hbi⟩ := hraw
  dsimp only at hbi
  split at hbi
  · rename_i hlight
    split at hbi
    · exact absurd hbi (List.not_mem_nil _)
    · obtain ⟨p, -, hpb⟩ := List.mem_map.mp hbi
      subst hpb
      refine ⟨hlight, ?_⟩
      dsimp only
      rw [decide_eq_true hlight, Bool.true_and]
      simp
  · exact absurd hbi (List.not_mem_nil _)

/-- C9 witness: a hydrogen bonded to an iron atom — the origin element is
light, the flag is false, and iron is indeed not in the allow-list. -/
theorem find_light_atom_bonds_light_flags_witness :
    (⟨0, 1, "H", "Fe", 1, 1, "H-Fe", false⟩ : BondQuantum.Bond) ∈
      BondQuantum.find_light_atom_bonds ["H", "Fe"] (fun _ => none)
        (fun _ => some [(1, 1)]) ∧
    ((⟨0, 1, "H", "Fe", 1, 1, "H-Fe", false⟩ : BondQuantum.Bond).atom1_element ∈
        BondQuantum.LIGHT_ATOMS ∧
      ((⟨0, 1, "H", "Fe", 1, 1, "H-Fe", false⟩ : BondQuantum.Bond).both_light = true ↔
        (⟨0, 1, "H", "Fe", 1, 1, "H-Fe", false⟩ : BondQuantum.Bond).atom2_element ∈
          BondQuantum.LIGHT_ATOMS)) :=
  ⟨by decide,
    find_light_atom_bonds_light_flags ["H", "Fe"] (fun _ => none)
      (fun _ => some [(1, 1)]) ⟨0, 1, "H", "Fe", 1, 1, "H-Fe", false⟩ (by decide)⟩

namespace BondQuantum

theorem foldl_max_spec :
    ∀ (l : List ℝ) (a : ℝ),
      a ≤ l.foldl max a ∧ (∀ y ∈ l, y ≤ l.foldl max a) ∧
        (l.foldl max a = a ∨ l.foldl max a ∈ l)
  | [], a => ⟨le_rfl, by simp, Or.inl rfl⟩
  | b :: l, a => by
    rw [List.foldl_cons]
    obtain ⟨h1, h2, h3⟩ := foldl_max_spec l (max a b)
    refine ⟨le_trans (le_max_left a b) h1, ?_, ?_⟩
    · intro y hy
      rcases List.mem_cons.mp hy with hy | hy
      · subst hy
        exact le_trans (le_max_right a y) h1
      · exact h2 y hy
    · rcases h3 with h3 | h3
      · rcases max_choice a b with hm | hm
        · exact Or.inl (h3.trans hm)
        · exact Or.inr (by rw [h3, hm]; exact List.mem_cons_self _ _)
      · exact Or.inr (List.mem_cons_of_mem _ h3)

theorem pymax_spec (x : ℝ) (xs : List ℝ) :
    pymax (x :: xs) ∈ x :: xs ∧ ∀ y ∈ x :: xs, y ≤ pymax (x :: xs) := by
  obtain ⟨h1, h2, h3⟩ := foldl_max_spec xs x
  constructor
  · show xs.foldl max x ∈ x :: xs
    rcases h3 with h3 | h3
    · rw [h3]
      exact List.mem_cons_self _ _
    · exact List.mem_cons_of_mem _ h3
  · intro y hy
    show y ≤ xs.foldl max x
    rcases List.mem_cons.mp hy with hy | hy
    · exact hy ▸ h1
    · exact h2 y hy

theorem distLE_trans (a b c : ABond) (hab : distLE a b = true)
    (hbc : distLE b c = true) : distLE a c = true := by
  simp only [distLE, decide_eq_true_eq] at *
  exact le_trans hab hbc

theorem distLE_total (a b : ABond) : (distLE a b || distLE b a) = true := by
  simp only [distLE, Bool.or_eq_true, decide_eq_true_eq]
  exact le_total _ _

theorem analyze_structure_nil (threshold : ℝ) :
    analyze_structure [] threshold =
      { light_bonds := [], shortest_bond := none, phonon_energy_meV := 0,
        phonon_energy_eV := 0, passes_energy_test := False, critical_bonds := [],
        threshold_meV := none } := rfl

theorem analyze_cons_spec (b0 : Bond) (rest : List Bond) (threshold : ℝ) :
    let bonds := b0 :: rest
    let r := analyze_structure bonds threshold
    r.light_bonds.Perm (bonds.map attachEnergy) ∧
    List.Sorted (fun a b : ABond => a.bond.distance ≤ b.bond.distance) r.light_bonds ∧
    (∀ ab ∈ r.light_bonds, ab.phonon_energy_eV =
      estimate_phonon_energy ab.bond.distance ab.bond.reduced_mass) ∧
    (∃ ab ∈ r.light_bonds, r.phonon_energy_eV = ab.phonon_energy_eV) ∧
    (∀ ab ∈ r.light_bonds, ab.phonon_energy_eV ≤ r.phonon_energy_eV) ∧
    (r.passes_energy_test ↔ threshold ≤ r.phonon_energy_eV) := by
  intro bonds r
  have hlb : r.light_bonds = (bonds.map attachEnergy).mergeSort distLE := rfl
  have hev : r.phonon_energy_eV =
      pymax (((bonds.map attachEnergy).mergeSort distLE).map
        fun ab => ab.phonon_energy_eV) := rfl
  have hpass : r.passes_energy_test =
      (threshold ≤ pymax (((bonds.map attachEnergy).mergeSort distLE).map
        fun ab => ab.phonon_energy_eV)) := rfl
  have hperm := List.mergeSort_perm (bonds.map attachEnergy) distLE
  have hne2 : (bonds.map attachEnergy).mergeSort distLE ≠ [] := by
    intro h0
    rw [h0] at hperm
    have h3 : (b0 :: rest).map attachEnergy = [] := hperm.symm.eq_nil
    simp at h3
  obtain ⟨s0, ss, hs⟩ := List.exists_cons_of_ne_nil hne2
  refine ⟨?_, ?_, ?_, ?_, ?_, ?_⟩
  · rw [hlb]
    exact hperm
  · rw [hlb]
    exact (List.sorted_mergeSort distLE_trans distLE_total
      (bonds.map attachEnergy)).imp fun h => of_decide_eq_true h
  · intro ab hab
    rw [hlb] at hab
    obtain ⟨b, -, hba⟩ := List.mem_map.mp (hperm.mem_iff.mp hab)
    subst hba
    rfl
  · have hmem := (pymax_spec (s0.phonon_energy_eV)
      (ss.map fun ab => ab.phonon_energy_eV)).1
    rw [← List.map_cons, ← hs] at hmem
    obtain ⟨ab, habm, habe⟩ := List.mem_map.mp hmem
    refine ⟨ab, by rw [hlb]; exact habm, ?_⟩
    rw [hev]
    exact habe.symm
  · have hub := (pymax_spec (s0.phonon_energy_eV)
      (ss.map fun ab => ab.phonon_energy_eV)).2
    rw [← List.map_cons, ← hs] at hub
    intro ab hab
    rw [hlb] at hab
    rw [hev]
    exact hub _ (List.mem_map_of_mem _ hab)
  · rw [hpass, hev]

theorem analyze_structure_cons (b : Bond) (bonds : List Bond) (threshold : ℝ) :
    analyze_structure (b :: bonds) threshold =
      (let sorted := ((b :: bonds).map attachEnergy).mergeSort distLE
       let max_energy := pymax (sorted.map fun ab => ab.phonon_energy_eV)
       { light_bonds := sorted
         shortest_bond := sorted.head?
         phonon_energy_meV := max_energy * 1000
         phonon_energy_eV := max_energy
         passes_energy_test := threshold ≤ max_energy
         critical_bonds := sorted.filter fun ab => rge ab.phonon_energy_eV threshold
         threshold_meV := some (threshold * 1000) }) := rfl

end BondQuantum

/-- C1 (code behaviour at the failing input): for every structure in which the
light-bond selector finds no bonds, `analyze_structure` short-circuits and
returns a well-formed fail verdict with phonon energy 0 (empty bond list, no
shortest bond, failing energy test, no critical bonds) without taking a
maximum of an empty sequence — but the returned dictionary lacks the
`threshold_meV` key, so the CLI's print paths raise `KeyError` and the
process exits with code 2, not 1 as the claim (and the code's own exit-code
comment) state. -/
theorem bond_quantum_empty_bonds_exit2 (atoms : List String)
    (mass : String → Option ℚ) (nn : ℕ → Option (List (ℕ × ℚ))) (threshold : ℝ)
    (h : BondQuantum.find_light_atom_bonds atoms mass nn = []) :
    let r := BondQuantum.analyze_structure
      (BondQuantum.find_light_atom_bonds atoms mass nn) threshold
    r.light_bonds = [] ∧ r.shortest_bond = none ∧ r.phonon_energy_eV = 0 ∧
    r.phonon_energy_meV = 0 ∧ ¬ r.passes_energy_test ∧ r.critical_bonds = [] ∧
    r.threshold_meV = none ∧ BondQuantum.bond_quantum_exit r = 2 := by
  intro r
  have hr : r =
      { light_bonds := [], shortest_bond := none, phonon_energy_meV := 0,
        phonon_energy_eV := 0, passes_energy_test := False, critical_bonds := [],
        threshold_meV := none } := by
    show BondQuantum.analyze_structure _ threshold = _
    rw [h]
    exact BondQuantum.analyze_structure_nil threshold
  rw [hr]
  exact ⟨rfl, rfl, rfl, rfl, not_false, rfl, rfl, rfl⟩

/-- C1 witness: a single-iron structure has no light atoms, so the selector
returns no bonds and the modelled CLI exits 2. -/
theorem bond_quantum_empty_bonds_exit2_witness :
    let r := BondQuantum.analyze_structure
      (BondQuantum.find_light_atom_bonds ["Fe"] (fun _ => none) (fun _ => none)) 0.081
    r.light_bonds = [] ∧ r.shortest_bond = none ∧ r.phonon_energy_eV = 0 ∧
    r.phonon_energy_meV = 0 ∧ ¬ r.passes_energy_test ∧ r.critical_bonds = [] ∧
    r.threshold_meV = none ∧ BondQuantum.bond_quantum_exit r = 2 :=
  bond_quantum_empty_bonds_exit2 ["Fe"] (fun _ => none) (fun _ => none) 0.081 (by decide)

/-- C4: for every non-empty bond list, `analyze_structure` attaches to every
bond the phonon energy computed by `estimate_phonon_energy`, returns the bond
list sorted ascending by distance (a permutation of the energy-annotated
input), reports as `phonon_energy_eV` the maximum energy over all bonds, and
the energy test passes exactly when that maximum is at least the threshold. -/
theorem analyze_structure_nonempty_spec (bonds : List BondQuantum.Bond)
    (threshold : ℝ) (hne : bonds ≠ []) :
    let r := BondQuantum.analyze_structure bonds threshold
    r.light_bonds.Perm (bonds.map BondQuantum.attachEnergy) ∧
    List.Sorted (fun a b : BondQuantum.ABond =>
      a.bond.distance ≤ b.bond.distance) r.light_bonds ∧
    (∀ ab ∈ r.light_bonds, ab.phonon_energy_eV =
      BondQuantum.estimate_phonon_energy ab.bond.distance ab.bond.reduced_mass) ∧
    (∃ ab ∈ r.light_bonds, r.phonon_energy_eV = ab.phonon_energy_eV) ∧
    (∀ ab ∈ r.light_bonds, ab.phonon_energy_eV ≤ r.phonon_energy_eV) ∧
    (r.passes_energy_test ↔ threshold ≤ r.phonon_energy_eV) := by
  obtain ⟨b0, rest, rfl⟩ := List.exists_cons_of_ne_nil hne
  exact BondQuantum.analyze_cons_spec b0 rest threshold

/-- C4 witness: the theorem applied to the non-empty list the light-bond
selector returns for a hydrogen–iron structure, at the default threshold. -/
theorem analyze_structure_nonempty_spec_witness :
    let r := BondQuantum.analyze_structure
      (BondQuantum.find_light_atom_bonds ["H", "Fe"] (fun _ => none)
        (fun _ => some [(1, 1)])) 0.081
    r.light_bonds.Perm ((BondQuantum.find_light_atom_bonds ["H", "Fe"] (fun _ => none)
      (fun _ => some [(1, 1)])).map BondQuantum.attachEnergy) ∧
    List.Sorted (fun a b : BondQuantum.ABond =>
      a.bond.distance ≤ b.bond.distance) r.light_bonds ∧
    (∀ ab ∈ r.light_bonds, ab.phonon_energy_eV =
      BondQuantum.estimate_phonon_energy ab.bond.distance ab.bond.reduced_mass) ∧
    (∃ ab ∈ r.light_bonds, r.phonon_energy_eV = ab.phonon_energy_eV) ∧
    (∀ ab ∈ r.light_bonds, ab.phonon_energy_eV ≤ r.phonon_energy_eV) ∧
    (r.passes_energy_test ↔ (0.081 : ℝ) ≤ r.phonon_energy_eV) :=
  analyze_structure_nonempty_spec
    (BondQuantum.find_light_atom_bonds ["H", "Fe"] (fun _ => none)
      (fun _ => some [(1, 1)])) 0.081 (by decide)

/-- C5: for a fixed positive reduced mass, `estimate_phonon_energy` is
strictly decreasing in the bond distance: shorter bonds give strictly higher
energies. -/
theorem estimate_phonon_energy_strict_anti (d1 d2 m : ℝ)
    (hd1 : 0 < d1) (h12 : d1 < d2) (hm : 0 < m) :
    BondQuantum.estimate_phonon_energy d2 m < BondQuantum.estimate_phonon_energy d1 m := by
  have key : ∀ x y : ℝ, 0 ≤ x → x < y →
      BondQuantum.HBAR * Real.sqrt x / BondQuantum.PI * 1000 / 1000 <
      BondQuantum.HBAR * Real.sqrt y / BondQuantum.PI * 1000 / 1000 := by
    intro x y hx hxy
    have hs := Real.sqrt_lt_sqrt hx hxy
    have hH : (0 : ℝ) < BondQuantum.HBAR := by rw [BondQuantum.HBAR]; norm_num
    have h1 : BondQuantum.HBAR * Real.sqrt x < BondQuantum.HBAR * Real.sqrt y :=
      mul_lt_mul_of_pos_left hs hH
    have hPI : (0 : ℝ) < BondQuantum.PI := by rw [BondQuantum.PI]; exact Real.pi_pos
    have h2 := (div_lt_div_iff_of_pos_right hPI).mpr h1
    have h3 := mul_lt_mul_of_pos_right h2 (show (0 : ℝ) < 1000 by norm_num)
    exact (div_lt_div_iff_of_pos_right (show (0 : ℝ) < 1000 by norm_num)).mpr h3
  have hC : (0 : ℝ) < 1.036427e-4 := by norm_num
  have hmc : 0 < m * 1.036427e-4 := mul_pos hm hC
  have hk : (100.0 : ℝ) / d2 ^ 2 < 100.0 / d1 ^ 2 :=
    div_lt_div_of_pos_left (by norm_num) (pow_pos hd1 2)
      (pow_lt_pow_left₀ h12 hd1.le two_ne_zero)
  have harg : (100.0 : ℝ) / d2 ^ 2 / (m * 1.036427e-4) <
      (100.0 : ℝ) / d1 ^ 2 / (m * 1.036427e-4) :=
    (div_lt_div_iff_of_pos_right hmc).mpr hk
  have harg0 : (0 : ℝ) ≤ (100.0 : ℝ) / d2 ^ 2 / (m * 1.036427e-4) := by positivity
  exact key _ _ harg0 harg

/-- C5 witness: doubling the distance at unit reduced mass strictly lowers
the estimated energy. -/
theorem estimate_phonon_energy_strict_anti_witness :
    BondQuantum.estimate_phonon_energy 2 1 < BondQuantum.estimate_phonon_energy 1 1 :=
  estimate_phonon_energy_strict_anti 1 2 1 (by norm_num) (by norm_num) (by norm_num)

namespace Stability

theorem stability_main_cons (f : Option (List String))
    (fs : List (Option (List String))) :
    stability_main (f :: fs) =
      if (f :: fs).any (fun x => x.isNone) then 2
      else
        match analyse_files ((f :: fs).filterMap id) with
        | .error _ => 2
        | .ok (_, imag, _) => if imag = 0 then 0 else 1 := rfl

theorem analyseGo_error :
    ∀ (cs : List (List String)) (e : String), parseAll cs = .error e →
      ∀ t i m, analyseGo cs t i m = .error e
  | [], e, h, _, _, _ => by simp [parseAll] at h
  | c :: cs, e, h, t, i, m => by
    rw [parseAll] at h
    rw [analyseGo]
    cases hp : parse_frequencies c with
    | error e' =>
      rw [hp] at h
      simp only [Except.error.injEq] at h
      rw [h]
    | ok fs =>
      rw [hp] at h
      cases hq : parseAll cs with
      | error e' =>
        rw [hq] at h
        simp only [Except.map, Except.error.injEq] at h
        subst h
        exact analyseGo_error cs e' hq _ _ _
      | ok fss =>
        rw [hq] at h
        simp [Except.map] at h

theorem analyseGo_ok :
    ∀ (cs : List (List String)) (fss : List (List ℚ)), parseAll cs = .ok fss →
      ∀ t i m, ∃ mf, analyseGo cs t i m =
        .ok (t + fss.flatten.length,
          i + (fss.flatten.filter fun w => decide (w < 0)).length, mf)
  | [], fss, h, t, i, m => by
    simp only [parseAll, Except.ok.injEq] at h
    subst h
    exact ⟨m, by simp [analyseGo]⟩
  | c :: cs, fss, h, t, i, m => by
    rw [parseAll] at h
    cases hp : parse_frequencies c with
    | error e =>
      rw [hp] at h
      simp at h
    | ok fs =>
      rw [hp] at h
      cases hq : parseAll cs with
      | error e =>
        rw [hq] at h
        simp [Except.map] at h
      | ok fss' =>
        rw [hq] at h
        simp only [Except.map, Except.ok.injEq] at h
        subst h
        rw [analyseGo, hp]
        obtain ⟨mf, hgo⟩ := analyseGo_ok cs fss' hq (t + fs.length)
          (i + (fs.filter fun w => decide (w < 0)).length) (min m (pymin fs))
        refine ⟨mf, ?_⟩
        show analyseGo cs (t + fs.length)
          (i + (fs.filter fun w => decide (w < 0)).length) (min m (pymin fs)) = _
        rw [hgo]
        simp [List.filter_append, Nat.add_assoc]

end Stability

/-- C8: the stability checker accumulates the regex-extracted frequencies
across all given files and exits 0 when none of them is negative, 1 when at
least one is negative, and 2 when a file is missing or parsing fails. -/
theorem stability_exit_code_spec (files : List (Option (List String)))
    (hne : files ≠ []) :
    (none ∈ files → Stability.stability_main files = 2) ∧
    ∀ cs : List (List String), files = cs.map some →
      ((∃ e, Stability.parseAll cs = .error e) → Stability.stability_main files = 2) ∧
      ∀ fss, Stability.parseAll cs = .ok fss →
        (Stability.stability_main files =
          if (fss.flatten.filter fun w => decide (w < 0)).length = 0 then 0 else 1) ∧
        (Stability.stability_main files = 0 ↔ ∀ w ∈ fss.flatten, 0 ≤ w) ∧
        (Stability.stability_main files = 1 ↔ ∃ w ∈ fss.flatten, w < 0) := by
  obtain ⟨f, fs, rfl⟩ := List.exists_cons_of_ne_nil hne
  constructor
  · intro hnone
    rw [Stability.stability_main_cons,
      if_pos (List.any_eq_true.mpr ⟨none, hnone, rfl⟩)]
  · intro cs hcs
    have hnone : ((f :: fs).any fun x => x.isNone) = false := by
      rw [hcs]
      simp
    have hfm : (f :: fs).filterMap id = cs := by
      rw [hcs]
      simp
    constructor
    · rintro ⟨e, he⟩
      have ha : Stability.analyse_files ((f :: fs).filterMap id) = .error e := by
        rw [hfm]
        exact Stability.analyseGo_error cs e he 0 0 _
      rw [Stability.stability_main_cons, if_neg (by simp [hnone]),
        ha]
    · intro fss hfss
      obtain ⟨mf, hgo⟩ := Stability.analyseGo_ok cs fss hfss 0 0 ((10 : ℚ) ^ 9)
      have ha : Stability.analyse_files ((f :: fs).filterMap id) =
          .ok (fss.flatten.length,
            (fss.flatten.filter fun w => decide (w < 0)).length, mf) := by
        rw [hfm]
        show Stability.analyseGo cs 0 0 _ = _
        rw [hgo]
        simp
      have hmain : Stability.stability_main (f :: fs) =
          if (fss.flatten.filter fun w => decide (w < 0)).length = 0 then 0 else 1 := by
        rw [Stability.stability_main_cons, if_neg (by simp [hnone]),
          ha]
      have hI : (fss.flatten.filter fun w => decide (w < 0)).length = 0 ↔
          ∀ w ∈ fss.flatten, 0 ≤ w := by
        rw [List.length_eq_zero, List.filter_eq_nil_iff]
        simp [not_lt]
      refine ⟨hmain, ?_, ?_⟩
      · rw [hmain]
        by_cases hz : (fss.flatten.filter fun w => decide (w < 0)).length = 0
        · rw [if_pos hz]
          exact iff_of_true rfl (hI.mp hz)
        · rw [if_neg hz]
          constructor
          · intro h
            exact absurd h one_ne_zero
          · intro hall
            exact absurd (hI.mpr hall) hz
      · rw [hmain]
        by_cases hz : (fss.flatten.filter fun w => decide (w < 0)).length = 0
        · rw [if_pos hz]
          constructor
          · intro h
            exact absurd h.symm one_ne_zero
          · rintro ⟨w, hw, hwneg⟩
            exact absurd (hI.mp hz w hw) (not_le.mpr hwneg)
        · rw [if_neg hz]
          refine iff_of_true rfl ?_
          by_contra hno
          push_neg at hno
          exact hz (hI.mpr hno)

/-- C8 witness: a single readable file with one matching line carrying the
negative frequency -0.5 makes the checker exit 1. -/
theorem stability_exit_code_spec_witness :
    Stability.stability_main [some ["freq(1)= -0.5"]] = 1 := by
  have hs : Stability.searchFreq "freq(1)= -0.5".toList = some ['-', '0', '.', '5'] := by
    decide
  have hcore : Stability.pyFloatCore ['0', '.', '5'] = some (1/2 : ℚ) := by
    rw [Stability.pyFloatCore, if_pos (by decide)]
    rw [show (['0', '.', '5'].takeWhile fun c => c != '.') = ['0'] from by decide]
    rw [show ((['0', '.', '5'].dropWhile fun c => c != '.').drop 1) = ['5'] from by decide]
    norm_num [show Stability.digitsToNat ['0'] = 0 from by decide,
      show Stability.digitsToNat ['5'] = 5 from by decide]
  have hf : Stability.pyFloat ['-', '0', '.', '5'] = some (-(1/2) : ℚ) := by
    show (Stability.pyFloatCore ['0', '.', '5']).map Neg.neg = _
    rw [hcore]
    rfl
  have hgo : Stability.parseGo ["freq(1)= -0.5"] = .ok [-(1/2 : ℚ)] := by
    rw [Stability.parseGo, hs]
    dsimp only
    rw [hf]
    rfl
  have hpf : Stability.parse_frequencies ["freq(1)= -0.5"] = .ok [-(1/2 : ℚ)] := by
    rw [Stability.parse_frequencies, hgo]
  have hpa : Stability.parseAll [["freq(1)= -0.5"]] = .ok [[-(1/2 : ℚ)]] := by
    rw [Stability.parseAll, hpf]
    rfl
  have h := (stability_exit_code_spec [some ["freq(1)= -0.5"]] (by simp)).2
    [["freq(1)= -0.5"]] rfl
  have h2 := (h.2 [[-(1/2 : ℚ)]] hpa).2.2
  exact h2.mpr ⟨-(1/2 : ℚ), by simp, by norm_num⟩

namespace Stability

theorem parseGo_no_match :
    ∀ (lines : List String), (∀ l ∈ lines, searchFreq l.toList = none) →
      parseGo lines = .ok []
  | [], _ => rfl
  | l :: ls, h => by
    rw [parseGo, h l (List.mem_cons_self _ _)]
    exact parseGo_no_match ls fun l' hl' => h l' (List.mem_cons_of_mem _ hl')

end Stability

/-- C10: a readable file none of whose lines matches the frequency pattern
makes `parse_frequencies` raise, and the checker exits 2 — it is a parse
failure, not an all-stable result with zero modes. -/
theorem no_freq_lines_exit2 (lines : List String)
    (h : ∀ l ∈ lines, Stability.searchFreq l.toList = none) :
    Stability.parse_frequencies lines = .error "No frequencies found" ∧
    Stability.stability_main [some lines] = 2 := by
  have hp : Stability.parse_frequencies lines = .error "No frequencies found" := by
    rw [Stability.parse_frequencies, Stability.parseGo_no_match lines h]
  refine ⟨hp, ?_⟩
  have ha : Stability.analyse_files (([some lines] :
      List (Option (List String))).filterMap id) = .error "No frequencies found" := by
    show Stability.analyseGo [lines] 0 0 _ = _
    rw [Stability.analyseGo, hp]
  rw [Stability.stability_main_cons, if_neg (by simp), ha]

/-- C10 witness: a line in the actual Quantum-Espresso output format
(`freq(   1) =` with a space before `=`) does not match the checker's regex,
so a file of such lines is a parse failure with exit code 2. -/
theorem no_freq_lines_exit2_witness :
    Stability.parse_frequencies ["    freq(   1) =    -16.680000 [cm-1]"] =
      .error "No frequencies found" ∧
    Stability.stability_main [some ["    freq(   1) =    -16.680000 [cm-1]"]] = 2 :=
  no_freq_lines_exit2 ["    freq(   1) =    -16.680000 [cm-1]"] (by decide)
